import Mathlib

/-! internetometer-cli: the speed-test orchestrator of package `yandex`.

A shallow embedding of `pkg/yandex/speed.go`, `pkg/yandex/parallel.go` and
`pkg/yandex/client.go`.

* Go strings are Lean `String`s; `regexp.MustCompile(lit).MatchString(s)` for the
  two metacharacter-free patterns of the source is substring search.
* `time.Duration` is an `Int` number of nanoseconds.
* `float64` rates are stood in for by exact rationals (`ℚ`): rounding is not
  modelled and nothing is proved about the numeric value of a rate.
* The network, the clock and the worker goroutines are an explicit environment
  (`Env`) that supplies the outcome of every external interaction.
-/

set_option autoImplicit false
set_option maxRecDepth 100000

namespace Yandex

/-! ## types.go -/

/-- The `Probe` struct of `types.go`. -/
structure Probe where
  URL : String
  Timeout : Int
  deriving DecidableEq, Repr

/-- The anonymous element struct of `ProbesResponse.Upload.Probes`. -/
structure UploadProbe where
  Size : Int
  URL : String
  deriving DecidableEq, Repr

/-- The fields of `ProbesResponse` read by `RunSpeedTest`:
`Latency.Probes`, `Download.Probes`, `Upload.Probes`. -/
structure ProbesResponse where
  LatencyProbes : List Probe
  DownloadProbes : List Probe
  UploadProbes : List UploadProbe
  deriving Repr

/-! ## Regular expression matching for literal patterns -/

/-- Substring search: `pat` occurs somewhere in the character list. -/
def containsSub (pat : List Char) : List Char → Bool
  | [] => pat.isEmpty
  | c :: cs => pat.isPrefixOf (c :: cs) || containsSub pat cs

/-- The call `regexp.MustCompile(pat).MatchString(s)` for a pattern without
metacharacters: true exactly when `pat` is a substring of `s`. -/
def matchString (pat s : String) : Bool :=
  containsSub pat.toList s.toList

/-! ## speed.go: download probe selection (RunSpeedTest, lines 53-65) -/

/-- The guard of the selection loop:
`targetProbe == nil || (p.URL != "" && !MatchString("100kb", p.URL))`. -/
def selectGuard (targetProbe : Option Probe) (p : Probe) : Bool :=
  targetProbe.isNone || (p.URL != "" && !matchString "100kb" p.URL)

/-- The `for i := range probes.Download.Probes` loop with its `break`,
started with the current value of `targetProbe`. -/
def selectLoop : Option Probe → List Probe → Option Probe
  | targetProbe, [] => targetProbe
  | targetProbe, p :: rest =>
    if selectGuard targetProbe p then
      if matchString "50mb" p.URL then some p
      else selectLoop (some p) rest
    else selectLoop targetProbe rest

/-- The value of `targetProbe` after the loop and the `nil` fallback to
`&probes.Download.Probes[0]`, for the non-empty list `p0 :: rest`. -/
def selectTarget (p0 : Probe) (rest : List Probe) : Probe :=
  match selectLoop none (p0 :: rest) with
  | some p => p
  | none => p0

/-- The URL handed to `measureDownloadParallel`: `targetProbe.URL` when
`len(probes.Download.Probes) > 0`, and no URL at all (the phase is not entered)
for the empty list. -/
def downloadTargetURL : List Probe → Option String
  | [] => none
  | p0 :: rest => some (selectTarget p0 rest).URL

/-- A probe of the 50MB class that is not of the 100KB class: its URL matches
`50mb` and does not match `100kb`. -/
def is50mbClass (p : Probe) : Bool :=
  matchString "50mb" p.URL && !matchString "100kb" p.URL

/-- A non-small probe: its URL is non-empty and does not match `100kb` (the
second disjunct of the loop guard). -/
def isNonSmall (p : Probe) : Bool :=
  p.URL != "" && !matchString "100kb" p.URL

/-- The probe list with the given URLs (every `Timeout` zero). -/
def probesOf (urls : List String) : List Probe :=
  urls.map (fun u => { URL := u, Timeout := 0 })

/-! ## client.go -/

/-- The `Config` struct of `client.go`; `Timeout` is a `time.Duration`. -/
structure Config where
  BaseURL : String
  UserAgent : String
  Timeout : Int
  Language : String
  Concurrency : Int
  deriving DecidableEq, Repr

/-- One second as a `time.Duration` (nanoseconds). -/
def Second : Int := 1000000000

/-- The `Client` struct: the timeout of its `http.Client` and its configuration.
The bookkeeping field `lastTestStart` (a wall-clock reading) is not modelled. -/
structure Client where
  httpTimeout : Int
  config : Config
  deriving DecidableEq, Repr

/-- `NewClient`: fill in the defaults of the configuration and build the
client. -/
def NewClient (cfg : Config) : Client :=
  let cfg := if cfg.BaseURL = "" then { cfg with BaseURL := "https://yandex.ru/internet" } else cfg
  let cfg := if cfg.UserAgent = "" then
      { cfg with UserAgent := "Mozilla/5.0 (Windows NT 10.0; Win64; x64) AppleWebKit/537.36 (KHTML, like Gecko) Chrome/120.0.0.0 Safari/537.36" }
    else cfg
  let cfg := if cfg.Timeout = 0 then { cfg with Timeout := 30 * Second } else cfg
  let cfg := if cfg.Concurrency ≤ 0 then { cfg with Concurrency := 4 } else cfg
  { httpTimeout := cfg.Timeout, config := cfg }

/-! ## The environment -/

/-- The outcome of one latency attempt (one iteration of the inner loop of
`measureLatency` for a probe with a non-empty URL). -/
inductive Attempt where
  /-- The call `http.NewRequestWithContext` returned an error. -/
  | requestError
  /-- The call `c.httpClient.Do(req)` returned an error. -/
  | transportError
  /-- A response arrived with this status code; `elapsed` is the value of
  `time.Since(start)` read when the status is 200. -/
  | response (status : Int) (elapsed : Int)
  deriving DecidableEq, Repr

/-- What the worker goroutines and the clock of one throughput phase produce:
the final value of the shared byte counter and `time.Since(start)` read after
`wg.Wait()`. -/
structure Transfer where
  totalBytes : Int
  elapsed : Int
  deriving DecidableEq, Repr

/-- Everything outside the program: the outcome of `c.get` on the probe-list
endpoint, of the latency attempt for round `i` and probe index `j`, and of the
download and upload worker pools for a given URL (payload size) and worker
count. -/
structure Env where
  getProbes : Except String ProbesResponse
  latencyAttempt : Nat → Nat → Attempt
  downloadRun : String → Int → Transfer
  uploadRun : String → Int → Int → Transfer

/-! ## speed.go: GetProbes and measureLatency -/

/-- `GetProbes`: the decoded response, or the wrapped error of `c.get`. -/
def GetProbes (env : Env) : Except String ProbesResponse :=
  match env.getProbes with
  | .error err => .error ("failed to get probes: " ++ err)
  | .ok resp => .ok resp

/-- The initial value of `min` in `measureLatency`: `10 * time.Second`. -/
def latencyInitialMin : Int := 10 * Second

/-- The body of the inner loop of `measureLatency` on the loop state
`(min, found)`. -/
def latencyBody (a : Attempt) (p : Probe) (st : Int × Bool) : Int × Bool :=
  if p.URL = "" then st
  else
    match a with
    | .requestError => st
    | .transportError => st
    | .response status dur =>
      if status = 200 then (if dur < st.1 then dur else st.1, true) else st

/-- The inner loop `for _, p := range probes` of one round; `j` is the index
of the head of the remaining list. -/
def latencyRound (attempt : Nat → Attempt) : Nat → List Probe → Int × Bool → Int × Bool
  | _, [], st => st
  | j, p :: rest, st => latencyRound attempt (j + 1) rest (latencyBody (attempt j) p st)

/-- The outer loop `for i := 0; i < count; i++` with `count = 3`. -/
def latencyLoop (env : Env) (probes : List Probe) : Int × Bool :=
  (List.range 3).foldl (fun st i => latencyRound (env.latencyAttempt i) 0 probes st)
    (latencyInitialMin, false)

/-- `measureLatency`: the pair `(duration, err)` it returns. -/
def measureLatency (env : Env) (probes : List Probe) : Int × Option String :=
  let st := latencyLoop env probes
  if !st.2 then (0, some "no successful latency probes")
  else (st.1, none)

/-- The elapsed times of the successful attempts of one round, in order: the
probe has a non-empty URL and its attempt got a response with status 200. -/
def roundSuccesses (attempt : Nat → Attempt) : Nat → List Probe → List Int
  | _, [] => []
  | j, p :: rest =>
    (if p.URL = "" then []
     else match attempt j with
       | .response status dur => if status = 200 then [dur] else []
       | _ => []) ++ roundSuccesses attempt (j + 1) rest

/-- The elapsed times of all successful attempts of the three rounds. -/
def successfulTimes (env : Env) (probes : List Probe) : List Int :=
  roundSuccesses (env.latencyAttempt 0) 0 probes
    ++ (roundSuccesses (env.latencyAttempt 1) 0 probes
    ++ roundSuccesses (env.latencyAttempt 2) 0 probes)

/-- The minimum of a non-empty list of durations (`none` for the empty list). -/
def minimumOf : List Int → Option Int
  | [] => none
  | d :: ds => some (ds.foldl min d)

/-- An attempt counts as successful when the probe URL is non-empty (the probe
is not skipped) and a response with status 200 arrived. -/
def attemptSucceeded (a : Attempt) (p : Probe) : Bool :=
  p.URL != "" &&
    match a with
    | .response status _ => status == 200
    | _ => false

/-- An environment in which every latency attempt is answered with status 200
after 12 seconds (and nothing else succeeds). -/
def slowEnv : Env :=
  { getProbes := .error "unreachable"
    latencyAttempt := fun _ _ => .response 200 (12 * Second)
    downloadRun := fun _ _ => { totalBytes := 0, elapsed := 0 }
    uploadRun := fun _ _ _ => { totalBytes := 0, elapsed := 0 } }

/-- An environment in which only the second of the three latency rounds is
answered with status 200, after 50 milliseconds; the probe list has one latency
probe and nothing to download or upload. -/
def secondRoundEnv : Env :=
  { getProbes := .ok { LatencyProbes := probesOf ["l"], DownloadProbes := [], UploadProbes := [] }
    latencyAttempt := fun i _ => if i = 1 then .response 200 50000000 else .transportError
    downloadRun := fun _ _ => { totalBytes := 0, elapsed := 0 }
    uploadRun := fun _ _ _ => { totalBytes := 0, elapsed := 0 } }

/-- Every attempt of the three rounds over every probe was skipped (empty URL),
errored, or answered with a status other than 200. -/
def allAttemptsFailed (env : Env) (probes : List Probe) : Prop :=
  ∀ i : Nat, i < 3 → ∀ (j : Nat) (p : Probe), probes[j]? = some p →
    attemptSucceeded (env.latencyAttempt i j) p = false

/-! ## parallel.go: the rate of a throughput phase -/

/-- `Duration.Seconds` of package `time`:
`float64(d / Second) + float64(d % Second) / 1e9`, with Go's truncating
division. -/
def Duration.Seconds (d : Int) : ℚ :=
  ((d.tdiv Second : Int) : ℚ) + ((d.tmod Second : Int) : ℚ) / 1000000000

/-- The fixed window `targetDuration = 8 * time.Second` of both phases. It
bounds how long the workers run; the rate does not read it. -/
def targetDuration : Int := 8 * Second

/-- `measureDownloadParallel`, lines 87-91: after the workers are done,
`duration := time.Since(start).Seconds()` and
`bitsPerSec := float64(totalRead) * 8 / duration`, returned with a nil error.
The `float64` value is stood in for by the exact quotient; only the nil error and
the place of the rate in `SpeedResult` are used below, never its numeric
value. -/
def measureDownloadParallel (env : Env) (url : String) (concurrency : Int) : ℚ × Option String :=
  let run := env.downloadRun url concurrency
  let duration := Duration.Seconds run.elapsed
  let bitsPerSec := ((run.totalBytes : ℚ) * 8) / duration
  (bitsPerSec, none)

/-- `measureUploadParallel`, lines 171-175: the same computation on
`totalWritten`. -/
def measureUploadParallel (env : Env) (url : String) (size : Int) (concurrency : Int) :
    ℚ × Option String :=
  let run := env.uploadRun url size concurrency
  let duration := Duration.Seconds run.elapsed
  let bitsPerSec := ((run.totalBytes : ℚ) * 8) / duration
  (bitsPerSec, none)

/-! ## speed.go: RunSpeedTest -/

/-- The `SpeedResult` struct. -/
structure SpeedResult where
  DownloadMbps : ℚ
  UploadMbps : ℚ
  Latency : Int
  deriving DecidableEq, Repr

/-- A call of one of the three measurement functions, with its arguments. -/
inductive Call where
  | latency (probes : List Probe)
  | download (url : String) (concurrency : Int)
  | upload (url : String) (size : Int) (concurrency : Int)
  deriving DecidableEq, Repr

/-- The latency phase (lines 43-49) on the result built so far. -/
def latencyPhase (env : Env) (probes : ProbesResponse) (result : SpeedResult) :
    SpeedResult × List Call :=
  if probes.LatencyProbes.length > 0 then
    let r := measureLatency env probes.LatencyProbes
    (if r.2 = none then { result with Latency := r.1 } else result,
      [Call.latency probes.LatencyProbes])
  else (result, [])

/-- The download phase (lines 51-72). -/
def downloadPhase (env : Env) (c : Client) (probes : ProbesResponse) (result : SpeedResult) :
    SpeedResult × List Call :=
  match downloadTargetURL probes.DownloadProbes with
  | none => (result, [])
  | some url =>
    let r := measureDownloadParallel env url c.config.Concurrency
    (if r.2 = none then { result with DownloadMbps := r.1 / 1000000 } else result,
      [Call.download url c.config.Concurrency])

/-- The upload phase (lines 74-84). -/
def uploadPhase (env : Env) (c : Client) (probes : ProbesResponse) (result : SpeedResult) :
    SpeedResult × List Call :=
  match probes.UploadProbes with
  | [] => (result, [])
  | p0 :: _ =>
    let targetURL := p0.URL
    if targetURL ≠ "" then
      let r := measureUploadParallel env targetURL (50 * 1024 * 1024) c.config.Concurrency
      (if r.2 = none then { result with UploadMbps := r.1 / 1000000 } else result,
        [Call.upload targetURL (50 * 1024 * 1024) c.config.Concurrency])
    else (result, [])

/-- `RunSpeedTest`: the returned pair `(*SpeedResult, error)` together with the
measurement calls made, in order. -/
def RunSpeedTest (env : Env) (c : Client) : (Option SpeedResult × Option String) × List Call :=
  match GetProbes env with
  | .error err => ((none, some err), [])
  | .ok probes =>
    let result : SpeedResult := { DownloadMbps := 0, UploadMbps := 0, Latency := 0 }
    let l := latencyPhase env probes result
    let d := downloadPhase env c probes l.1
    let u := uploadPhase env c probes d.1
    ((some u.1, none), l.2 ++ d.2 ++ u.2)

/-- The worker count a measurement call was given (`none` for the latency
call, which has no workers). -/
def Call.workers : Call → Option Int
  | .latency _ => none
  | .download _ concurrency => some concurrency
  | .upload _ _ concurrency => some concurrency

/-- The measurement calls that the probe list alone asks for: the latency call
when there are latency probes, the download call when there are download
probes, the upload call when the first upload probe has a non-empty URL. -/
def plannedCalls (c : Client) (probes : ProbesResponse) : List Call :=
  (if probes.LatencyProbes.length > 0 then [Call.latency probes.LatencyProbes] else [])
  ++ (match downloadTargetURL probes.DownloadProbes with
      | some url => [Call.download url c.config.Concurrency]
      | none => [])
  ++ (match probes.UploadProbes with
      | p0 :: _ =>
        if p0.URL ≠ "" then [Call.upload p0.URL (50 * 1024 * 1024) c.config.Concurrency] else []
      | [] => [])

/-- The client built from the zero `Config`: every default applies. -/
def defaultClient : Client :=
  NewClient { BaseURL := "", UserAgent := "", Timeout := 0, Language := "", Concurrency := 0 }

/-- An environment in which the probe list arrives with one latency probe and
every latency attempt ends in a transport error. -/
def deadEnv : Env :=
  { getProbes := .ok { LatencyProbes := probesOf ["l"], DownloadProbes := [], UploadProbes := [] }
    latencyAttempt := fun _ _ => .transportError
    downloadRun := fun _ _ => { totalBytes := 0, elapsed := 0 }
    uploadRun := fun _ _ _ => { totalBytes := 0, elapsed := 0 } }

/-! ## speed.go: the upload payload source -/

/-- The errors a `Read` can return. -/
inductive IoError where
  /-- The sentinel `io.EOF`. -/
  | EOF
  deriving DecidableEq, Repr

/-- What a `Read(p)` leaves behind: the buffer `p` after the call and the
returned pair `(n, err)`. -/
structure ReadResult where
  buf : List UInt8
  n : Int
  err : Option IoError
  deriving DecidableEq

/-- `nullReader.Read`: overwrite every byte of `p` with zero and return
`(len(p), nil)`. -/
def nullReader.Read (p : List UInt8) : ReadResult :=
  { buf := p.map (fun _ => 0), n := p.length, err := none }

/-- `io.LimitedReader.Read` of the Go standard library, for an underlying reader
`R` without state and remaining budget `N`: at `N <= 0` return `(0, io.EOF)`;
otherwise cut `p` to `p[0:N]` when it is longer than `N`, read into it, and
subtract the count from `N`. Returns the new `N` and the read result, whose
buffer is all of `p`. -/
def LimitedReader.Read (R : List UInt8 → ReadResult) (N : Int) (p : List UInt8) :
    Int × ReadResult :=
  if N ≤ 0 then (N, { buf := p, n := 0, err := some IoError.EOF })
  else
    let q := if (p.length : Int) > N then p.take N.toNat else p
    let r := R q
    (N - r.n, { buf := r.buf ++ p.drop q.length, n := r.n, err := r.err })

/-- The upload body `&io.LimitedReader{R: &nullReader{}, N: int64(size)}`: one
`Read(p)` at remaining budget `N`. -/
def uploadBodyRead (N : Int) (p : List UInt8) : Int × ReadResult :=
  LimitedReader.Read nullReader.Read N p

/-- Read the upload body with the buffer `p` again and again until a read
returns an error, at most `fuel` times: the `(n, err)` pairs of the reads made. -/
def readToEnd : Nat → Int → List UInt8 → List (Int × Option IoError)
  | 0, _, _ => []
  | fuel + 1, N, p =>
    let r := uploadBodyRead N p
    match r.2.err with
    | some e => [(r.2.n, some e)]
    | none => (r.2.n, none) :: readToEnd fuel r.1 r.2.buf

/-! ## speed.go and parallel.go: the counting wrapper -/

/-- The `ProgressReport` struct. -/
structure ProgressReport where
  Bytes : Int
  IsDownload : Bool
  deriving DecidableEq, Repr

/-- What the `OnRead` closure of a throughput phase touches: the shared byte
counter (`totalRead` or `totalWritten`) and the reports handed to the
`progress` callback so far, in order. -/
structure CounterState where
  total : Int
  reports : List ProgressReport
  deriving DecidableEq, Repr

/-- The value an `int64` holds after an addition whose exact result is `x`:
two's-complement wrap-around into `[-2^63, 2^63)`. -/
def wrapInt64 (x : Int) : Int :=
  (x + 9223372036854775808) % 18446744073709551616 - 9223372036854775808

/-- The `OnRead` closure of `measureDownloadParallel` (`isDownload = true`,
lines 61-66) and of `measureUploadParallel` (`isDownload = false`, lines
121-126): `newTotal := atomic.AddInt64(&total, int64(n))`, then
`progress(ProgressReport{Bytes: newTotal, IsDownload: isDownload})` when
`progress != nil`. `progressSet` says whether `progress` is non-nil. The add is
one indivisible step on the `int64` counter and wraps around on overflow. -/
def onReadParallel (isDownload progressSet : Bool) (n : Int) (st : CounterState) :
    CounterState :=
  let newTotal := wrapInt64 (st.total + n)
  if progressSet then
    { total := newTotal, reports := st.reports ++ [{ Bytes := newTotal, IsDownload := isDownload }] }
  else { total := newTotal, reports := st.reports }

/-- `progressReader.Read`: `(n, err)` is what `r.Reader.Read(p)` returned; call
`r.OnRead(n)` when `n > 0` and `r.OnRead != nil`, and return `(n, err)`. -/
def progressReader.Read {ε : Type} (OnRead : Option (Int → CounterState → CounterState))
    (n : Int) (err : Option ε) (st : CounterState) : (Int × Option ε) × CounterState :=
  match OnRead with
  | some f => if n > 0 then ((n, err), f n st) else ((n, err), st)
  | none => ((n, err), st)

/-- One read through the wrapper built by a throughput phase, whose `OnRead` is
always set. -/
def countingRead {ε : Type} (isDownload progressSet : Bool) (n : Int) (err : Option ε)
    (st : CounterState) : (Int × Option ε) × CounterState :=
  progressReader.Read (some (onReadParallel isDownload progressSet)) n err st

/-- One read on the counter of a phase: the worker goroutine whose wrapper made
it, and the `(n, err)` pair its underlying reader returned. The counter
(`totalRead`, `totalWritten`) is one variable shared by all `concurrency`
workers of the phase. -/
structure SharedRead (ε : Type) where
  worker : Nat
  n : Int
  err : Option ε
  deriving DecidableEq, Repr

/-- What one read on the shared counter did: who made it, the pair returned to
the caller, the reports it handed to `progress`, and the counter value its
`OnRead` left (the counter value before, when `OnRead` was not called). -/
structure ReadOutcome (ε : Type) where
  worker : Nat
  returned : Int × Option ε
  emitted : List ProgressReport
  totalAfter : Int
  deriving DecidableEq, Repr

/-- The reads of all wrappers of one phase, listed in the order in which they
act on the shared counter, run from the counter value `total`: the outcome of
each read. -/
def sharedRun {ε : Type} (isDownload progressSet : Bool) :
    List (SharedRead ε) → Int → List (ReadOutcome ε)
  | [], _ => []
  | r :: rest, total =>
    let res := countingRead isDownload progressSet r.n r.err { total := total, reports := [] }
    { worker := r.worker, returned := res.1, emitted := res.2.reports,
      totalAfter := res.2.total } :: sharedRun isDownload progressSet rest res.2.total

/-- The sum of the counts of the reads made by worker `w`. -/
def ownSum {ε : Type} (w : Nat) : List (SharedRead ε) → Int
  | [] => 0
  | r :: rest => (if r.worker = w then r.n else 0) + ownSum w rest

/-- The sum of the counts of the reads made by the workers other than `w`. -/
def othersSum {ε : Type} (w : Nat) : List (SharedRead ε) → Int
  | [] => 0
  | r :: rest => (if r.worker = w then 0 else r.n) + othersSum w rest

/-- The sum of the counts of all reads of the list. -/
def allSum {ε : Type} (l : List (SharedRead ε)) : Int :=
  (l.map (fun r => r.n)).sum

/-- The largest `int64`, `2^63 - 1`. -/
def maxInt64 : Int := 9223372036854775807

/-- Worker 0 reads 5 bytes, worker 1 reads 7, worker 0 reads 3 and then meets
the end of the body. -/
def twoWorkerReads : List (SharedRead IoError) :=
  [{ worker := 0, n := 5, err := none }, { worker := 1, n := 7, err := none },
   { worker := 0, n := 3, err := none }, { worker := 0, n := 0, err := some IoError.EOF }]

/-! ## parallel.go: the download worker (lines 26-74) -/

/-- One millisecond as a `time.Duration`. -/
def Millisecond : Int := 1000000

/-- What `c.httpClient.Do(req)` gave a download worker. -/
inductive DoResult where
  /-- A non-nil error. -/
  | error
  /-- A nil error with `resp == nil || resp.Body == nil`. -/
  | nilResponse
  /-- A response with this status code; `copied` is the byte count returned by
  `io.Copy(io.Discard, pr)` when the status is 200. -/
  | response (status : Int) (copied : Int)
  deriving DecidableEq, Repr

/-- What one pass through the worker loop meets: whether `ctx.Done()` is closed
at the `select`, the value of `time.Since(start)` at the deadline check, whether
`http.NewRequestWithContext` returned an error, and the result of `Do`. -/
structure Iteration where
  cancelled : Bool
  elapsed : Int
  requestError : Bool
  result : DoResult
  deriving DecidableEq, Repr

/-- The visible actions of a download or upload worker. -/
inductive WorkerEvent where
  /-- A new GET request for the URL was built and handed to `httpClient.Do`. -/
  | get (url : String)
  /-- A new POST request for the URL with a body of `size` zero bytes was built
  and handed to `httpClient.Do`. -/
  | post (url : String) (size : Int)
  /-- The call `resp.Body.Close()`. -/
  | closeBody
  /-- The call `time.Sleep(d)`. -/
  | sleep (d : Int)
  /-- The call `io.Copy(io.Discard, pr)` returned `n`. -/
  | copy (n : Int)
  deriving DecidableEq, Repr

/-- One pass through the loop body of a download worker: its actions, and
whether the loop goes on (`true`) or the goroutine returns (`false`). -/
def downloadIteration (url : String) (it : Iteration) : List WorkerEvent × Bool :=
  if it.cancelled then ([], false)
  else if it.elapsed ≥ targetDuration then ([], false)
  else if it.requestError then ([], false)
  else
    match it.result with
    | .error => ([.get url], false)
    | .nilResponse => ([.get url], false)
    | .response status copied =>
      if status ≠ 200 then
        ([.get url, .closeBody] ++ (if status = 403 then [.sleep (1 * Second)] else []), true)
      else
        ([.get url, .copy copied, .closeBody]
          ++ (if copied = 0 then [.sleep (200 * Millisecond)] else []), true)

/-- The worker goroutine run against a finite list of passes: its actions, and
whether it returned (`true`) or is still looping when the list ends
(`false`). -/
def downloadWorker (url : String) : List Iteration → List WorkerEvent × Bool
  | [] => ([], false)
  | it :: rest =>
    let r := downloadIteration url it
    if r.2 then
      let rs := downloadWorker url rest
      (r.1 ++ rs.1, rs.2)
    else (r.1, true)

/-- One pass through the loop body of an upload worker (parallel.go, lines
108-158): its actions, and whether the loop goes on. `nilResponse` stands for
`resp == nil` and for `resp.Body == nil`. -/
def uploadIteration (url : String) (size : Int) (it : Iteration) : List WorkerEvent × Bool :=
  if it.cancelled then ([], false)
  else if it.elapsed ≥ targetDuration then ([], false)
  else if it.requestError then ([], false)
  else
    match it.result with
    | .error => ([.post url size], false)
    | .nilResponse => ([.post url size], false)
    | .response status _ =>
      if status ≠ 200 then
        ([.post url size, .closeBody, .sleep (500 * Millisecond)], true)
      else ([.post url size, .closeBody], true)

/-- The total time a list of actions spends in `time.Sleep`. -/
def sleepTotal : List WorkerEvent → Int
  | [] => 0
  | .sleep d :: rest => d + sleepTotal rest
  | _ :: rest => sleepTotal rest

/-- A pass in which the request goes out and is answered with this status. -/
def answered (status : Int) : Iteration :=
  { cancelled := false, elapsed := 0, requestError := false, result := .response status 0 }

/-! ## Download probe selection -/

theorem matchString_50mb_ne_empty (s : String) (h : matchString "50mb" s = true) :
    (s != "") = true := by
  by_cases hs : s = ""
  · subst hs
    exact absurd h (by decide)
  · simpa using hs

theorem is50mbClass_isNonSmall (p : Probe) (h : is50mbClass p = true) :
    isNonSmall p = true := by
  unfold is50mbClass at h
  unfold isNonSmall
  rw [Bool.and_eq_true] at h ⊢
  exact ⟨matchString_50mb_ne_empty _ h.1, h.2⟩

theorem selectGuard_some (t p : Probe) : selectGuard (some t) p = isNonSmall p := by
  simp [selectGuard, isNonSmall]

theorem selectGuard_none (p : Probe) : selectGuard none p = true := by
  simp [selectGuard]

/-- Once a candidate is held, the loop stops at the first 50MB-class probe of
the remaining list, if there is one. -/
theorem selectLoop_some_find (rest : List Probe) :
    ∀ t : Probe, (∃ p ∈ rest, is50mbClass p = true) →
      selectLoop (some t) rest = rest.find? is50mbClass := by
  induction rest with
  | nil => intro t h; simp at h
  | cons p ps ih =>
    intro t h
    by_cases hb : is50mbClass p = true
    · have hu := is50mbClass_isNonSmall p hb
      have h50 : matchString "50mb" p.URL = true := by
        unfold is50mbClass at hb
        rw [Bool.and_eq_true] at hb
        exact hb.1
      simp [selectLoop, selectGuard_some, hu, h50, List.find?, hb]
    · have hex : ∃ q ∈ ps, is50mbClass q = true := by
        obtain ⟨q, hq, hqb⟩ := h
        rcases List.mem_cons.mp hq with rfl | hq
        · exact absurd hqb hb
        · exact ⟨q, hq, hqb⟩
      have hfind : (p :: ps).find? is50mbClass = ps.find? is50mbClass := by
        simp [List.find?, hb]
      rw [hfind]
      by_cases hu : isNonSmall p = true
      · have h50 : matchString "50mb" p.URL = false := by
          by_contra hc
          apply hb
          unfold isNonSmall at hu
          unfold is50mbClass
          rw [Bool.and_eq_true] at hu ⊢
          exact ⟨by simpa using hc, hu.2⟩
        simp only [selectLoop, selectGuard_some, hu, h50, if_true]
        simpa using ih p hex
      · simp only [selectLoop, selectGuard_some, hu]
        simpa using ih t hex

/-- Once a candidate is held, it survives a remaining list without non-small
probes. -/
theorem selectLoop_some_keep (rest : List Probe) :
    ∀ t : Probe, (∀ p ∈ rest, isNonSmall p = false) → selectLoop (some t) rest = some t := by
  induction rest with
  | nil => intro t _; rfl
  | cons p ps ih =>
    intro t h
    have hp := h p (List.mem_cons_self _ _)
    simp only [selectLoop, selectGuard_some, hp]
    simpa using ih t (fun q hq => h q (List.mem_cons_of_mem _ hq))

/-- Without any URL matching `50mb` the loop never breaks: it ends with the last
non-small probe of the remaining list, or with the candidate it started
with. -/
theorem selectLoop_some_last (rest : List Probe) :
    ∀ t : Probe, (∀ p ∈ rest, matchString "50mb" p.URL = false) →
      selectLoop (some t) rest = some ((rest.reverse.find? isNonSmall).getD t) := by
  induction rest with
  | nil => intro t _; rfl
  | cons p ps ih =>
    intro t h
    have hp := h p (List.mem_cons_self _ _)
    have hps : ∀ q ∈ ps, matchString "50mb" q.URL = false :=
      fun q hq => h q (List.mem_cons_of_mem _ hq)
    rw [List.reverse_cons, List.find?_append]
    by_cases hu : isNonSmall p = true
    · simp only [selectLoop, selectGuard_some, hu, hp, if_true, Bool.false_eq_true, if_false]
      rw [ih p hps]
      cases ps.reverse.find? isNonSmall <;> simp [List.find?, hu]
    · have hu' : isNonSmall p = false := by simpa using hu
      simp only [selectLoop, selectGuard_some, hu', Bool.false_eq_true, if_false]
      rw [ih t hps]
      cases ps.reverse.find? isNonSmall <;> simp [List.find?, hu']

/-- The URL handed over is the URL of what the loop leaves in `targetProbe`,
whenever the loop leaves something. -/
theorem downloadTargetURL_cons (p0 t : Probe) (rest : List Probe)
    (h : selectLoop none (p0 :: rest) = some t) :
    downloadTargetURL (p0 :: rest) = some t.URL := by
  simp [downloadTargetURL, selectTarget, h]

/-- The first iteration: the first probe is taken whatever its URL, and the
loop stops there when that URL matches `50mb`. -/
theorem selectLoop_none_cons (p0 : Probe) (rest : List Probe) :
    selectLoop none (p0 :: rest)
      = if matchString "50mb" p0.URL then some p0 else selectLoop (some p0) rest := by
  simp [selectLoop, selectGuard_none]

/-- C1, as amended: for every download probe list in which some probe URL
contains "50mb" and does not contain "100kb", and whose first URL does not
contain both "50mb" and "100kb", the URL passed to the download measurement is
the first URL of the list that contains "50mb" and not "100kb". -/
theorem downloadTarget_first_50mb (probes : List Probe)
    (hex : ∃ p ∈ probes, is50mbClass p = true)
    (hfirst : ∀ p0, probes.head? = some p0 →
      ¬ (matchString "50mb" p0.URL = true ∧ matchString "100kb" p0.URL = true)) :
    downloadTargetURL probes = (probes.find? is50mbClass).map (fun p => p.URL) := by
  cases probes with
  | nil => simp at hex
  | cons p0 rest =>
    have h0 := hfirst p0 rfl
    by_cases h50 : matchString "50mb" p0.URL = true
    · have hb : is50mbClass p0 = true := by
        unfold is50mbClass
        rw [Bool.and_eq_true]
        refine ⟨h50, ?_⟩
        cases h100 : matchString "100kb" p0.URL
        · rfl
        · exact absurd ⟨h50, h100⟩ h0
      rw [downloadTargetURL_cons p0 p0 rest (by rw [selectLoop_none_cons, if_pos h50])]
      simp [List.find?, hb]
    · have hb : is50mbClass p0 = false := by
        unfold is50mbClass
        cases hm : matchString "50mb" p0.URL
        · rfl
        · exact absurd hm h50
      have hex2 : ∃ q ∈ rest, is50mbClass q = true := by
        obtain ⟨q, hq, hqb⟩ := hex
        rcases List.mem_cons.mp hq with rfl | hq
        · rw [hb] at hqb; exact absurd hqb (by decide)
        · exact ⟨q, hq, hqb⟩
      have hloop : selectLoop none (p0 :: rest) = rest.find? is50mbClass := by
        rw [selectLoop_none_cons, if_neg h50, selectLoop_some_find rest p0 hex2]
      obtain ⟨t, ht⟩ : ∃ t, rest.find? is50mbClass = some t := by
        cases hf : rest.find? is50mbClass with
        | some t => exact ⟨t, rfl⟩
        | none =>
          obtain ⟨q, hq, hqb⟩ := hex2
          have := List.find?_eq_none.mp hf q hq
          exact absurd hqb this
      rw [downloadTargetURL_cons p0 t rest (by rw [hloop, ht])]
      simp [List.find?, hb, ht]

/-- C1, witness of the amended claim: the list of the specification,
`["a-100kb","b-normal","c-50mb"]`, selects `"c-50mb"`. -/
theorem downloadTarget_first_50mb_witness :
    (∃ p ∈ probesOf ["a-100kb", "b-normal", "c-50mb"], is50mbClass p = true)
    ∧ downloadTargetURL (probesOf ["a-100kb", "b-normal", "c-50mb"]) = some "c-50mb" :=
  ⟨by decide,
   (downloadTarget_first_50mb (probesOf ["a-100kb", "b-normal", "c-50mb"])
      (by decide) (by decide)).trans (by decide)⟩

/-- C1, counterexample to the claim as stated: in `["a-50mb-100kb","c-50mb"]`
the first URL containing "50mb" and not "100kb" is `"c-50mb"`, and the URL
selected is `"a-50mb-100kb"`. -/
theorem downloadTarget_first_50mb_counterexample :
    probesOf ["a-50mb-100kb", "c-50mb"] ≠ []
    ∧ (∃ p ∈ probesOf ["a-50mb-100kb", "c-50mb"], is50mbClass p = true)
    ∧ ((probesOf ["a-50mb-100kb", "c-50mb"]).find? is50mbClass).map (fun p => p.URL)
        = some "c-50mb"
    ∧ downloadTargetURL (probesOf ["a-50mb-100kb", "c-50mb"]) = some "a-50mb-100kb"
    ∧ downloadTargetURL (probesOf ["a-50mb-100kb", "c-50mb"])
        ≠ ((probesOf ["a-50mb-100kb", "c-50mb"]).find? is50mbClass).map (fun p => p.URL) := by
  decide

/-- C2: for every non-empty download probe list in which every probe URL is
empty or contains "100kb", the selected URL is the URL of the probe at index
0. -/
theorem downloadTarget_fallback_first (probes : List Probe) (hne : probes ≠ [])
    (hsmall : ∀ p ∈ probes, p.URL = "" ∨ matchString "100kb" p.URL = true) :
    downloadTargetURL probes = some (probes.head hne).URL := by
  cases probes with
  | nil => exact absurd rfl hne
  | cons p0 rest =>
    have hrest : ∀ p ∈ rest, isNonSmall p = false := by
      intro p hp
      unfold isNonSmall
      rcases hsmall p (List.mem_cons_of_mem _ hp) with h | h
      · simp [h]
      · simp [h]
    have hloop : selectLoop none (p0 :: rest) = some p0 := by
      rw [selectLoop_none_cons]
      split
      · rfl
      · exact selectLoop_some_keep rest p0 hrest
    rw [downloadTargetURL_cons p0 p0 rest hloop]
    rfl

/-- C2, witness: `["a-100kb","b-100kb"]` selects `"a-100kb"`. -/
theorem downloadTarget_fallback_first_witness :
    probesOf ["a-100kb", "b-100kb"] ≠ []
    ∧ (∀ p ∈ probesOf ["a-100kb", "b-100kb"], p.URL = "" ∨ matchString "100kb" p.URL = true)
    ∧ downloadTargetURL (probesOf ["a-100kb", "b-100kb"]) = some "a-100kb" :=
  ⟨by decide, by decide,
   downloadTarget_fallback_first (probesOf ["a-100kb", "b-100kb"]) (by decide) (by decide)⟩

/-- C3, as amended: for every download probe list in which no URL contains
"50mb" and at least one URL is non-empty and does not contain "100kb", the
selected URL is the last URL in list order that is non-empty and does not
contain "100kb". -/
theorem downloadTarget_last_nonSmall (probes : List Probe)
    (hno50 : ∀ p ∈ probes, matchString "50mb" p.URL = false)
    (hex : ∃ p ∈ probes, isNonSmall p = true) :
    downloadTargetURL probes = (probes.reverse.find? isNonSmall).map (fun p => p.URL) := by
  cases probes with
  | nil => simp at hex
  | cons p0 rest =>
    have h0 := hno50 p0 (List.mem_cons_self _ _)
    have hrest : ∀ q ∈ rest, matchString "50mb" q.URL = false :=
      fun q hq => hno50 q (List.mem_cons_of_mem _ hq)
    have hloop : selectLoop none (p0 :: rest)
        = some ((rest.reverse.find? isNonSmall).getD p0) := by
      rw [selectLoop_none_cons, h0]
      simpa using selectLoop_some_last rest p0 hrest
    rw [downloadTargetURL_cons p0 _ rest hloop, List.reverse_cons, List.find?_append]
    cases hf : rest.reverse.find? isNonSmall with
    | some t => simp
    | none =>
      have hp0 : isNonSmall p0 = true := by
        obtain ⟨q, hq, hqb⟩ := hex
        rcases List.mem_cons.mp hq with rfl | hq
        · exact hqb
        · have := List.find?_eq_none.mp hf q (List.mem_reverse.mpr hq)
          exact absurd hqb this
      simp [List.find?, hp0]

/-- C3, witness of the amended claim: `["a-100kb","b-normal","c-normal"]`
selects `"c-normal"`. -/
theorem downloadTarget_last_nonSmall_witness :
    (∀ p ∈ probesOf ["a-100kb", "b-normal", "c-normal"], matchString "50mb" p.URL = false)
    ∧ (∃ p ∈ probesOf ["a-100kb", "b-normal", "c-normal"], isNonSmall p = true)
    ∧ downloadTargetURL (probesOf ["a-100kb", "b-normal", "c-normal"]) = some "c-normal" :=
  ⟨by decide, by decide,
   (downloadTarget_last_nonSmall (probesOf ["a-100kb", "b-normal", "c-normal"])
      (by decide) (by decide)).trans (by decide)⟩

/-- C3, counterexample to the claim as stated: in `["a-normal","b-normal"]` no
URL contains "50mb", the first non-empty URL without "100kb" is `"a-normal"`,
and the URL selected is `"b-normal"`. -/
theorem downloadTarget_first_nonSmall_counterexample :
    probesOf ["a-normal", "b-normal"] ≠ []
    ∧ (∀ p ∈ probesOf ["a-normal", "b-normal"], matchString "50mb" p.URL = false)
    ∧ (∃ p ∈ probesOf ["a-normal", "b-normal"], isNonSmall p = true)
    ∧ ((probesOf ["a-normal", "b-normal"]).find? isNonSmall).map (fun p => p.URL)
        = some "a-normal"
    ∧ downloadTargetURL (probesOf ["a-normal", "b-normal"]) = some "b-normal" := by
  decide

/-! ## The upload payload source -/

theorem uploadBodyRead_exhausted (N : Int) (hN : N ≤ 0) (p : List UInt8) :
    uploadBodyRead N p = (N, { buf := p, n := 0, err := some IoError.EOF }) := by
  simp [uploadBodyRead, LimitedReader.Read, hN]

theorem uploadBodyRead_pos (N : Int) (hN : 0 < N) (p : List UInt8) :
    uploadBodyRead N p
      = (N - min N p.length,
          { buf := List.replicate (min N p.length).toNat 0 ++ p.drop (min N p.length).toNat,
            n := min N p.length, err := none }) := by
  have hN' : ¬ N ≤ 0 := not_le.mpr hN
  by_cases hlt : (p.length : Int) > N
  · have hmin : min N (p.length : Int) = N := min_eq_left (le_of_lt hlt)
    have hlen : N.toNat ≤ p.length := by omega
    have hcast : ((N.toNat : Nat) : Int) = N := Int.toNat_of_nonneg (le_of_lt hN)
    simp [uploadBodyRead, LimitedReader.Read, nullReader.Read, hN', hlt, hmin,
      List.length_take, Nat.min_eq_left hlen, hcast]
  · have hle : (p.length : Int) ≤ N := not_lt.mp hlt
    have hmin : min N (p.length : Int) = p.length := min_eq_right hle
    simp [uploadBodyRead, LimitedReader.Read, nullReader.Read, hN', hlt, hmin]

theorem getLast?_cons_of_ne_nil {α : Type} (a : α) (l : List α) (h : l ≠ []) :
    (a :: l).getLast? = l.getLast? := by
  cases l with
  | nil => exact absurd rfl h
  | cons b l => simp [List.getLast?_cons_cons]

/-- Reading to the end with enough fuel: the counts add up to the budget, the
last read is `(0, io.EOF)`, and every read before it returns a positive count
and a nil error. -/
theorem readToEnd_total (fuel : Nat) :
    ∀ (N : Int) (p : List UInt8), 0 ≤ N → N.toNat < fuel → 0 < p.length →
      ((readToEnd fuel N p).map Prod.fst).sum = N
      ∧ (readToEnd fuel N p).getLast? = some (0, some IoError.EOF)
      ∧ ∀ e ∈ (readToEnd fuel N p).dropLast, 0 < e.1 ∧ e.2 = none := by
  induction fuel with
  | zero => intro N p _ h _; exact absurd h (Nat.not_lt_zero _)
  | succ fuel ih =>
    intro N p hN hfuel hk
    rcases eq_or_lt_of_le hN with h0 | hpos
    · subst h0
      simp [readToEnd, uploadBodyRead_exhausted]
    · have hkz : (0 : Int) < p.length := by exact_mod_cast hk
      have hmpos : 0 < min N (p.length : Int) := lt_min hpos hkz
      have hmle : min N (p.length : Int) ≤ N := min_le_left _ _
      have hlen : (List.replicate (min N (p.length : Int)).toNat (0 : UInt8)
          ++ p.drop (min N (p.length : Int)).toNat).length = p.length := by
        have : (min N (p.length : Int)).toNat ≤ p.length := by omega
        simp [List.length_append, List.length_replicate, List.length_drop]
      obtain ⟨hsum, hlast, hall⟩ := ih (N - min N (p.length : Int))
        (List.replicate (min N (p.length : Int)).toNat (0 : UInt8)
          ++ p.drop (min N (p.length : Int)).toNat)
        (by omega) (by omega) (by rw [hlen]; exact hk)
      have hne : readToEnd fuel (N - min N (p.length : Int))
          (List.replicate (min N (p.length : Int)).toNat (0 : UInt8)
            ++ p.drop (min N (p.length : Int)).toNat) ≠ [] := by
        intro hnil
        rw [hnil] at hlast
        simp at hlast
      simp only [readToEnd, uploadBodyRead_pos N hpos p]
      refine ⟨?_, ?_, ?_⟩
      · rw [List.map_cons, List.sum_cons, hsum]
        omega
      · rw [getLast?_cons_of_ne_nil _ _ hne]
        exact hlast
      · intro e he
        rw [List.dropLast_cons_of_ne_nil hne] at he
        rcases List.mem_cons.mp he with rfl | he
        · exact ⟨hmpos, rfl⟩
        · exact hall e he

/-- C4: the upload payload source (`nullReader` behind an `io.LimitedReader`
with budget `B >= 0`), read with a buffer of length `k > 0`: a read returns
exactly `min(B, k)` bytes, all of them zero (the rest of the buffer is left
alone), lowers the budget by that amount and reports no error while the budget
is positive; at budget zero it returns 0 bytes and end-of-data; and reading to
the end delivers exactly `B` bytes, through reads of positive size followed by
one end-of-data read. -/
theorem uploadBody_behaves_as_nullSource (B : Int) (hB : 0 ≤ B) (p : List UInt8)
    (hk : 0 < p.length) :
    (uploadBodyRead B p).2.n = min B p.length
    ∧ (uploadBodyRead B p).2.buf
        = List.replicate (min B p.length).toNat 0 ++ p.drop (min B p.length).toNat
    ∧ (uploadBodyRead B p).1 = B - min B p.length
    ∧ (0 < B → (uploadBodyRead B p).2.err = none)
    ∧ (B = 0 → (uploadBodyRead B p).2.n = 0 ∧ (uploadBodyRead B p).2.err = some IoError.EOF)
    ∧ ((readToEnd (B.toNat + 1) B p).map Prod.fst).sum = B
    ∧ (readToEnd (B.toNat + 1) B p).getLast? = some (0, some IoError.EOF)
    ∧ ∀ e ∈ (readToEnd (B.toNat + 1) B p).dropLast, 0 < e.1 ∧ e.2 = none := by
  have htotal := readToEnd_total (B.toNat + 1) B p hB (Nat.lt_succ_self _) hk
  rcases eq_or_lt_of_le hB with h0 | hpos
  · subst h0
    have hmin : min (0 : Int) (p.length : Int) = 0 := min_eq_left (by omega)
    rw [uploadBodyRead_exhausted 0 le_rfl p, hmin]
    refine ⟨rfl, by simp, by simp, fun h => absurd h (lt_irrefl _), fun _ => ⟨rfl, rfl⟩, htotal⟩
  · rw [uploadBodyRead_pos B hpos p]
    exact ⟨rfl, rfl, rfl, fun _ => rfl, fun h => absurd h (ne_of_gt hpos), htotal⟩

/-- C4, witness: budget 1000 and a 256-byte buffer give reads of 256, 256, 256
and 232 bytes and then end-of-data; the first read leaves the buffer all
zero. -/
theorem uploadBody_behaves_as_nullSource_witness :
    (0 : Int) ≤ 1000 ∧ 0 < (List.replicate 256 (255 : UInt8)).length
    ∧ readToEnd ((1000 : Int).toNat + 1) 1000 (List.replicate 256 255)
        = [(256, none), (256, none), (256, none), (232, none), (0, some IoError.EOF)]
    ∧ (uploadBodyRead 1000 (List.replicate 256 255)).2.buf = List.replicate 256 0
    ∧ ((readToEnd ((1000 : Int).toNat + 1) 1000 (List.replicate 256 255)).map Prod.fst).sum
        = 1000 :=
  ⟨by decide, by decide, by decide, by decide,
   (uploadBody_behaves_as_nullSource 1000 (by decide) (List.replicate 256 255)
      (by decide)).2.2.2.2.2.1⟩

/-! ## measureLatency -/

theorem foldl_min_min (l : List Int) :
    ∀ a b : Int, l.foldl min (min a b) = min a (l.foldl min b) := by
  induction l with
  | nil => intro a b; rfl
  | cons c l ih =>
    intro a b
    rw [List.foldl_cons, List.foldl_cons, min_assoc, ih a (min b c)]

/-- One round folds the elapsed times of its successful attempts into `min`
and raises `found` when there is at least one. -/
theorem latencyRound_eq (attempt : Nat → Attempt) (probes : List Probe) :
    ∀ (j : Nat) (st : Int × Bool),
      latencyRound attempt j probes st
        = ((roundSuccesses attempt j probes).foldl min st.1,
            st.2 || !(roundSuccesses attempt j probes).isEmpty) := by
  induction probes with
  | nil => intro j st; simp [latencyRound, roundSuccesses]
  | cons p rest ih =>
    intro j st
    rw [latencyRound, ih, roundSuccesses]
    by_cases hurl : p.URL = ""
    · simp [latencyBody, hurl]
    · cases ha : attempt j with
      | requestError => simp [latencyBody, hurl]
      | transportError => simp [latencyBody, hurl]
      | response status dur =>
        by_cases hs : status = 200
        · have hmin : (if dur < st.1 then dur else st.1) = min st.1 dur := by
            rcases lt_or_le dur st.1 with h | h
            · rw [if_pos h, min_eq_right (le_of_lt h)]
            · rw [if_neg (not_lt.mpr h), min_eq_left h]
          simp [latencyBody, hurl, hs, hmin]
        · simp [latencyBody, hurl, hs]

/-- The three rounds together. -/
theorem latencyLoop_eq (env : Env) (probes : List Probe) :
    latencyLoop env probes
      = ((successfulTimes env probes).foldl min latencyInitialMin,
          !(successfulTimes env probes).isEmpty) := by
  have hr : List.range 3 = [0, 1, 2] := by decide
  simp only [latencyLoop, hr, List.foldl_cons, List.foldl_nil, latencyRound_eq, successfulTimes,
    List.foldl_append, Bool.false_or]
  generalize roundSuccesses (env.latencyAttempt 0) 0 probes = l0
  generalize roundSuccesses (env.latencyAttempt 1) 0 probes = l1
  generalize roundSuccesses (env.latencyAttempt 2) 0 probes = l2
  cases l0 <;> cases l1 <;> cases l2 <;> simp

/-- A round has no successful attempt exactly when every attempt of the round
fails the success test. -/
theorem roundSuccesses_eq_nil (attempt : Nat → Attempt) (probes : List Probe) :
    ∀ j0 : Nat, roundSuccesses attempt j0 probes = [] ↔
      ∀ (j : Nat) (p : Probe), probes[j]? = some p →
        attemptSucceeded (attempt (j0 + j)) p = false := by
  induction probes with
  | nil => intro j0; simp [roundSuccesses]
  | cons q rest ih =>
    intro j0
    rw [roundSuccesses, List.append_eq_nil, ih]
    constructor
    · rintro ⟨hq, hrest⟩ j p hp
      cases j with
      | zero =>
        simp only [List.getElem?_cons_zero, Option.some.injEq] at hp
        subst hp
        by_cases hurl : q.URL = ""
        · simp [attemptSucceeded, hurl]
        · rw [if_neg hurl] at hq
          cases ha : attempt j0 with
          | requestError => simp [attemptSucceeded, ha]
          | transportError => simp [attemptSucceeded, ha]
          | response status dur =>
            rw [ha] at hq
            by_cases hs : status = 200
            · simp [hs] at hq
            · simp [attemptSucceeded, ha, hs]
      | succ j =>
        simp only [List.getElem?_cons_succ] at hp
        have := hrest j p hp
        rwa [Nat.add_assoc, Nat.add_comm 1 j] at this
    · intro h
      constructor
      · have h0 := h 0 q (by simp)
        by_cases hurl : q.URL = ""
        · simp [hurl]
        · rw [if_neg hurl]
          cases ha : attempt j0 with
          | requestError => rfl
          | transportError => rfl
          | response status dur =>
            by_cases hs : status = 200
            · simp [attemptSucceeded, hurl, ha, hs] at h0
            · simp [hs]
      · intro j p hp
        have := h (j + 1) p (by simpa using hp)
        rwa [Nat.add_assoc, Nat.add_comm 1 j]

/-- No elapsed time was recorded exactly when every attempt failed. -/
theorem successfulTimes_eq_nil (env : Env) (probes : List Probe) :
    successfulTimes env probes = [] ↔ allAttemptsFailed env probes := by
  unfold successfulTimes allAttemptsFailed
  simp only [List.append_eq_nil, roundSuccesses_eq_nil, Nat.zero_add]
  constructor
  · rintro ⟨h0, h1, h2⟩ i hi
    interval_cases i
    · exact h0
    · exact h1
    · exact h2
  · intro h
    exact ⟨h 0 (by decide), h 1 (by decide), h 2 (by decide)⟩

/-- With at least one successful attempt, `measureLatency` returns the smaller
of its initial `min` (ten seconds) and the minimum of the successful elapsed
times, and a nil error. -/
theorem measureLatency_eq_capped_min (env : Env) (probes : List Probe) (d : Int)
    (ds : List Int) (h : successfulTimes env probes = d :: ds) :
    measureLatency env probes = (min latencyInitialMin (ds.foldl min d), none) := by
  simp [measureLatency, latencyLoop_eq, h, foldl_min_min]

/-- With no successful attempt, `measureLatency` returns a zero duration and
its error. -/
theorem measureLatency_of_nil (env : Env) (probes : List Probe)
    (h : successfulTimes env probes = []) :
    measureLatency env probes = (0, some "no successful latency probes") := by
  simp [measureLatency, latencyLoop_eq, h]

/-- The example of the specification: only the second of three attempts
succeeds, after 50 ms, and `measureLatency` returns exactly 50 ms. -/
theorem measureLatency_second_round :
    measureLatency secondRoundEnv (probesOf ["l"]) = (50000000, none) := by
  decide

/-- C5, the code at the failing input: one probe whose three attempts all
succeed with status 200 after 12 seconds. The minimum of the successful elapsed
times is 12 s, and `measureLatency` returns 10 s, the initial value of `min`,
with a nil error. -/
theorem measureLatency_slow_probes_return_initial_min :
    successfulTimes slowEnv (probesOf ["l"]) = [12000000000, 12000000000, 12000000000]
    ∧ minimumOf (successfulTimes slowEnv (probesOf ["l"])) = some 12000000000
    ∧ measureLatency slowEnv (probesOf ["l"]) = (10000000000, none) := by
  decide

/-! ## RunSpeedTest -/

theorem RunSpeedTest_of_error (env : Env) (c : Client) (e : String)
    (h : env.getProbes = .error e) :
    RunSpeedTest env c = ((none, some ("failed to get probes: " ++ e)), []) := by
  simp [RunSpeedTest, GetProbes, h]

theorem RunSpeedTest_of_ok (env : Env) (c : Client) (resp : ProbesResponse)
    (h : env.getProbes = .ok resp) :
    RunSpeedTest env c
      = ((some (uploadPhase env c resp (downloadPhase env c resp
            (latencyPhase env resp { DownloadMbps := 0, UploadMbps := 0, Latency := 0 }).1).1).1,
          none),
         (latencyPhase env resp { DownloadMbps := 0, UploadMbps := 0, Latency := 0 }).2
          ++ (downloadPhase env c resp
            (latencyPhase env resp { DownloadMbps := 0, UploadMbps := 0, Latency := 0 }).1).2
          ++ (uploadPhase env c resp (downloadPhase env c resp
            (latencyPhase env resp { DownloadMbps := 0, UploadMbps := 0, Latency := 0 }).1).1).2) := by
  simp [RunSpeedTest, GetProbes, h]

theorem latencyPhase_calls (env : Env) (resp : ProbesResponse) (r : SpeedResult) :
    (latencyPhase env resp r).2
      = if resp.LatencyProbes.length > 0 then [Call.latency resp.LatencyProbes] else [] := by
  unfold latencyPhase
  split <;> rfl

theorem downloadPhase_calls (env : Env) (c : Client) (resp : ProbesResponse) (r : SpeedResult) :
    (downloadPhase env c resp r).2
      = match downloadTargetURL resp.DownloadProbes with
        | some url => [Call.download url c.config.Concurrency]
        | none => [] := by
  unfold downloadPhase
  cases downloadTargetURL resp.DownloadProbes <;> rfl

theorem uploadPhase_calls (env : Env) (c : Client) (resp : ProbesResponse) (r : SpeedResult) :
    (uploadPhase env c resp r).2
      = match resp.UploadProbes with
        | p0 :: _ =>
          if p0.URL ≠ "" then [Call.upload p0.URL (50 * 1024 * 1024) c.config.Concurrency]
          else []
        | [] => [] := by
  unfold uploadPhase
  cases resp.UploadProbes with
  | nil => rfl
  | cons p0 rest =>
    dsimp only
    split <;> rfl

/-- The calls made are those the probe list asks for, whatever the phases
return. -/
theorem RunSpeedTest_calls (env : Env) (c : Client) (resp : ProbesResponse)
    (h : env.getProbes = .ok resp) :
    (RunSpeedTest env c).2 = plannedCalls c resp := by
  rw [RunSpeedTest_of_ok env c resp h]
  simp only [latencyPhase_calls, downloadPhase_calls, uploadPhase_calls, plannedCalls]

theorem downloadPhase_latency (env : Env) (c : Client) (resp : ProbesResponse)
    (r : SpeedResult) : (downloadPhase env c resp r).1.Latency = r.Latency := by
  unfold downloadPhase
  cases downloadTargetURL resp.DownloadProbes with
  | none => rfl
  | some url =>
    dsimp only
    split <;> rfl

theorem uploadPhase_latency (env : Env) (c : Client) (resp : ProbesResponse)
    (r : SpeedResult) : (uploadPhase env c resp r).1.Latency = r.Latency := by
  unfold uploadPhase
  cases resp.UploadProbes with
  | nil => rfl
  | cons p0 rest =>
    dsimp only
    split
    · split <;> rfl
    · rfl

theorem uploadPhase_download (env : Env) (c : Client) (resp : ProbesResponse)
    (r : SpeedResult) : (uploadPhase env c resp r).1.DownloadMbps = r.DownloadMbps := by
  unfold uploadPhase
  cases resp.UploadProbes with
  | nil => rfl
  | cons p0 rest =>
    dsimp only
    split
    · split <;> rfl
    · rfl

theorem latencyPhase_of_failure (env : Env) (resp : ProbesResponse) (r : SpeedResult)
    (h : (measureLatency env resp.LatencyProbes).2 ≠ none) :
    (latencyPhase env resp r).1 = r := by
  unfold latencyPhase
  split
  · simp [h]
  · rfl

theorem latencyPhase_of_empty (env : Env) (resp : ProbesResponse) (r : SpeedResult)
    (h : resp.LatencyProbes = []) : latencyPhase env resp r = (r, []) := by
  simp [latencyPhase, h]

theorem downloadPhase_of_empty (env : Env) (c : Client) (resp : ProbesResponse)
    (r : SpeedResult) (h : resp.DownloadProbes = []) : downloadPhase env c resp r = (r, []) := by
  simp [downloadPhase, h, downloadTargetURL]

theorem uploadPhase_of_empty (env : Env) (c : Client) (resp : ProbesResponse)
    (r : SpeedResult) (h : resp.UploadProbes = []) : uploadPhase env c resp r = (r, []) := by
  simp [uploadPhase, h]

theorem latencyPhase_download (env : Env) (resp : ProbesResponse) (r : SpeedResult) :
    (latencyPhase env resp r).1.DownloadMbps = r.DownloadMbps := by
  unfold latencyPhase
  split
  · dsimp only
    split <;> rfl
  · rfl

theorem latencyPhase_upload (env : Env) (resp : ProbesResponse) (r : SpeedResult) :
    (latencyPhase env resp r).1.UploadMbps = r.UploadMbps := by
  unfold latencyPhase
  split
  · dsimp only
    split <;> rfl
  · rfl

theorem downloadPhase_upload (env : Env) (c : Client) (resp : ProbesResponse)
    (r : SpeedResult) : (downloadPhase env c resp r).1.UploadMbps = r.UploadMbps := by
  unfold downloadPhase
  cases downloadTargetURL resp.DownloadProbes with
  | none => rfl
  | some url =>
    dsimp only
    split <;> rfl

/-- Membership in the planned calls, phase by phase. -/
theorem mem_plannedCalls (c : Client) (resp : ProbesResponse) (call : Call) :
    call ∈ plannedCalls c resp ↔
      (resp.LatencyProbes ≠ [] ∧ call = Call.latency resp.LatencyProbes)
      ∨ (∃ url, downloadTargetURL resp.DownloadProbes = some url
          ∧ call = Call.download url c.config.Concurrency)
      ∨ (∃ p0 rest, resp.UploadProbes = p0 :: rest ∧ p0.URL ≠ ""
          ∧ call = Call.upload p0.URL (50 * 1024 * 1024) c.config.Concurrency) := by
  unfold plannedCalls
  rw [List.mem_append, List.mem_append, or_assoc]
  refine or_congr ?_ (or_congr ?_ ?_)
  · cases resp.LatencyProbes <;> simp
  · cases downloadTargetURL resp.DownloadProbes <;> simp
  · cases resp.UploadProbes with
    | nil => simp
    | cons p0 rest =>
      by_cases h : p0.URL = ""
      · simp [h]
      · simp [h]

/-- C6: `measureLatency` returns the "no successful latency probes" error if
and only if every attempt (3 rounds over every probe) was skipped, errored, or
returned a status other than 200, and a nil error otherwise; in the failing
case the returned duration is 0, and `RunSpeedTest`, once it has the probe
list, returns a result whose `Latency` is 0 and a nil error. -/
theorem measureLatency_error_iff_all_failed (env : Env) (probes : List Probe) :
    ((measureLatency env probes).2 = some "no successful latency probes"
        ↔ allAttemptsFailed env probes)
    ∧ (¬ allAttemptsFailed env probes → (measureLatency env probes).2 = none)
    ∧ (allAttemptsFailed env probes → (measureLatency env probes).1 = 0)
    ∧ (allAttemptsFailed env probes → ∀ (c : Client) (resp : ProbesResponse),
        env.getProbes = .ok resp → resp.LatencyProbes = probes →
          ∃ r, (RunSpeedTest env c).1 = (some r, none) ∧ r.Latency = 0) := by
  have hfail : allAttemptsFailed env probes →
      measureLatency env probes = (0, some "no successful latency probes") :=
    fun h => measureLatency_of_nil env probes ((successfulTimes_eq_nil env probes).mpr h)
  have hok : ¬ allAttemptsFailed env probes → (measureLatency env probes).2 = none := by
    intro h
    cases hs : successfulTimes env probes with
    | nil => exact absurd ((successfulTimes_eq_nil env probes).mp hs) h
    | cons d ds => rw [measureLatency_eq_capped_min env probes d ds hs]
  refine ⟨⟨?_, fun h => by rw [hfail h]⟩, hok, fun h => by rw [hfail h], ?_⟩
  · intro herr
    by_contra h
    rw [hok h] at herr
    exact absurd herr (by simp)
  · intro h c resp hget hprobes
    refine ⟨_, by rw [RunSpeedTest_of_ok env c resp hget], ?_⟩
    rw [uploadPhase_latency, downloadPhase_latency, latencyPhase_of_failure]
    rw [hprobes, hfail h]
    simp

/-- C6, witness: with one latency probe and three transport errors,
`measureLatency` returns `(0, "no successful latency probes")` and
`RunSpeedTest` returns a zero result with a nil error. -/
theorem measureLatency_error_iff_all_failed_witness :
    allAttemptsFailed deadEnv (probesOf ["l"])
    ∧ measureLatency deadEnv (probesOf ["l"]) = (0, some "no successful latency probes")
    ∧ ∃ r, (RunSpeedTest deadEnv defaultClient).1 = (some r, none) ∧ r.Latency = 0 :=
  have hall : allAttemptsFailed deadEnv (probesOf ["l"]) :=
    (measureLatency_error_iff_all_failed deadEnv (probesOf ["l"])).1.mp (by decide)
  ⟨hall, by decide,
   (measureLatency_error_iff_all_failed deadEnv (probesOf ["l"])).2.2.2 hall defaultClient
     { LatencyProbes := probesOf ["l"], DownloadProbes := [], UploadProbes := [] } rfl rfl⟩

/-! ## NewClient and the phases of RunSpeedTest -/

/-- C8: for every `Config` passed to `NewClient`, the client's `Concurrency`
is 4 when the caller passed a value `<= 0` and the caller's value when it was
`>= 1`; it is positive, and it is the worker count of every throughput
measurement that `RunSpeedTest` starts on that client. -/
theorem NewClient_concurrency_positive (cfg : Config) :
    (NewClient cfg).config.Concurrency = (if cfg.Concurrency ≤ 0 then 4 else cfg.Concurrency)
    ∧ 1 ≤ (NewClient cfg).config.Concurrency
    ∧ ∀ (env : Env) (call : Call) (n : Int),
        call ∈ (RunSpeedTest env (NewClient cfg)).2 → call.workers = some n →
          n = (NewClient cfg).config.Concurrency ∧ 1 ≤ n := by
  have hval : (NewClient cfg).config.Concurrency
      = (if cfg.Concurrency ≤ 0 then 4 else cfg.Concurrency) := by
    unfold NewClient
    dsimp only
    split_ifs <;> rfl
  have hpos : 1 ≤ (NewClient cfg).config.Concurrency := by
    rw [hval]
    split_ifs with h
    · decide
    · omega
  refine ⟨hval, hpos, ?_⟩
  intro env call n hmem hw
  have hn : n = (NewClient cfg).config.Concurrency := by
    cases hget : env.getProbes with
    | error e =>
      rw [RunSpeedTest_of_error env _ e hget] at hmem
      simp at hmem
    | ok resp =>
      rw [RunSpeedTest_calls env _ resp hget, mem_plannedCalls] at hmem
      rcases hmem with ⟨_, rfl⟩ | ⟨url, _, rfl⟩ | ⟨p0, rest, _, _, rfl⟩
      · simp [Call.workers] at hw
      · simpa [Call.workers] using hw.symm
      · simpa [Call.workers] using hw.symm
  exact ⟨hn, hn ▸ hpos⟩

/-- C9: `RunSpeedTest` returns an error if and only if fetching the probe list
fails, and then it returns no result and starts no measurement; whenever the
probe list is fetched it returns a result and a nil error whatever the latency,
download and upload phases produce, and the measurements it starts are those
the probe list asks for, so no phase outcome keeps a later phase from
running. -/
theorem RunSpeedTest_error_iff_fetch_fails (env : Env) (c : Client) :
    ((RunSpeedTest env c).1.2 ≠ none ↔ ∃ e, env.getProbes = .error e)
    ∧ (∀ e, env.getProbes = .error e →
        (RunSpeedTest env c).1 = (none, some ("failed to get probes: " ++ e))
        ∧ (RunSpeedTest env c).2 = [])
    ∧ (∀ resp, env.getProbes = .ok resp →
        (∃ r, (RunSpeedTest env c).1 = (some r, none))
        ∧ (RunSpeedTest env c).2 = plannedCalls c resp) := by
  refine ⟨?_, ?_, ?_⟩
  · cases hget : env.getProbes with
    | error e =>
      rw [RunSpeedTest_of_error env c e hget]
      simp
    | ok resp =>
      rw [RunSpeedTest_of_ok env c resp hget]
      simp
  · intro e hget
    rw [RunSpeedTest_of_error env c e hget]
    exact ⟨rfl, rfl⟩
  · intro resp hget
    refine ⟨⟨_, by rw [RunSpeedTest_of_ok env c resp hget]⟩, RunSpeedTest_calls env c resp hget⟩

/-- C9, witness: with every latency attempt failing, the run still returns a
result and a nil error, and with the probe list unavailable it returns the
error. -/
theorem RunSpeedTest_error_iff_fetch_fails_witness :
    (∃ r, (RunSpeedTest deadEnv defaultClient).1 = (some r, none))
    ∧ (RunSpeedTest deadEnv defaultClient).2 = [Call.latency (probesOf ["l"])]
    ∧ (RunSpeedTest slowEnv defaultClient).1
        = (none, some "failed to get probes: unreachable") :=
  ⟨((RunSpeedTest_error_iff_fetch_fails deadEnv defaultClient).2.2 _ rfl).1,
   ((RunSpeedTest_error_iff_fetch_fails deadEnv defaultClient).2.2 _ rfl).2.trans (by decide),
   ((RunSpeedTest_error_iff_fetch_fails slowEnv defaultClient).2.1 "unreachable" rfl).1⟩

/-- C10: once the probe list is fetched, a phase whose probe list is empty is
skipped: with an empty latency list `Latency = 0`, with an empty download list
`DownloadMbps = 0`, with an empty upload list `UploadMbps = 0`, and the
measurement function of that phase is not called. -/
theorem RunSpeedTest_skips_empty_phases (env : Env) (c : Client) (resp : ProbesResponse)
    (hget : env.getProbes = .ok resp) :
    ∃ r, (RunSpeedTest env c).1 = (some r, none)
      ∧ (resp.LatencyProbes = [] →
          r.Latency = 0 ∧ ∀ ps, Call.latency ps ∉ (RunSpeedTest env c).2)
      ∧ (resp.DownloadProbes = [] →
          r.DownloadMbps = 0 ∧ ∀ url n, Call.download url n ∉ (RunSpeedTest env c).2)
      ∧ (resp.UploadProbes = [] →
          r.UploadMbps = 0 ∧ ∀ url size n, Call.upload url size n ∉ (RunSpeedTest env c).2) := by
  refine ⟨_, by rw [RunSpeedTest_of_ok env c resp hget], ?_, ?_, ?_⟩
  · intro h
    constructor
    · rw [uploadPhase_latency, downloadPhase_latency, latencyPhase_of_empty env resp _ h]
    · intro ps hmem
      rw [RunSpeedTest_calls env c resp hget, mem_plannedCalls] at hmem
      rcases hmem with ⟨hne, _⟩ | ⟨url, _, heq⟩ | ⟨p0, rest, _, _, heq⟩
      · exact hne h
      · exact Call.noConfusion heq
      · exact Call.noConfusion heq
  · intro h
    constructor
    · rw [uploadPhase_download, downloadPhase_of_empty env c resp _ h, latencyPhase_download]
    · intro url n hmem
      rw [RunSpeedTest_calls env c resp hget, mem_plannedCalls] at hmem
      rcases hmem with ⟨_, heq⟩ | ⟨url2, hsel, _⟩ | ⟨p0, rest, _, _, heq⟩
      · exact Call.noConfusion heq
      · rw [h] at hsel
        exact Option.noConfusion hsel
      · exact Call.noConfusion heq
  · intro h
    constructor
    · rw [uploadPhase_of_empty env c resp _ h, downloadPhase_upload, latencyPhase_upload]
    · intro url size n hmem
      rw [RunSpeedTest_calls env c resp hget, mem_plannedCalls] at hmem
      rcases hmem with ⟨_, heq⟩ | ⟨url2, _, heq⟩ | ⟨p0, rest, hup, _, _⟩
      · exact Call.noConfusion heq
      · exact Call.noConfusion heq
      · rw [h] at hup
        exact List.noConfusion hup

/-- C10, witness: a probe list with one latency probe and nothing to download
or upload gives zero rates and only the latency call. -/
theorem RunSpeedTest_skips_empty_phases_witness :
    secondRoundEnv.getProbes
        = .ok { LatencyProbes := probesOf ["l"], DownloadProbes := [], UploadProbes := [] }
    ∧ ∃ r, (RunSpeedTest secondRoundEnv defaultClient).1 = (some r, none)
      ∧ r.DownloadMbps = 0 ∧ r.UploadMbps = 0
      ∧ (∀ url n, Call.download url n ∉ (RunSpeedTest secondRoundEnv defaultClient).2)
      ∧ (∀ url size n, Call.upload url size n ∉ (RunSpeedTest secondRoundEnv defaultClient).2) :=
  ⟨rfl,
   match RunSpeedTest_skips_empty_phases secondRoundEnv defaultClient
      { LatencyProbes := probesOf ["l"], DownloadProbes := [], UploadProbes := [] } rfl with
   | ⟨r, hr, _, hd, hu⟩ => ⟨r, hr, (hd rfl).1, (hu rfl).1, (hd rfl).2, (hu rfl).2⟩⟩

/-! ## Download probe selection: empty URLs -/

theorem isNonSmall_url_ne_empty (p : Probe) (h : isNonSmall p = true) : p.URL ≠ "" := by
  unfold isNonSmall at h
  rw [Bool.and_eq_true] at h
  simpa using h.1

/-- Started with a candidate, the loop ends with that candidate or with a
non-small probe of the remaining list, and with the latter whenever the
remaining list has a non-small probe. -/
theorem selectLoop_some_result (rest : List Probe) :
    ∀ t : Probe, ∃ r, selectLoop (some t) rest = some r
      ∧ (r = t ∨ (r ∈ rest ∧ isNonSmall r = true))
      ∧ ((∃ p ∈ rest, isNonSmall p = true) → r ∈ rest ∧ isNonSmall r = true) := by
  induction rest with
  | nil =>
    intro t
    exact ⟨t, rfl, Or.inl rfl, fun h => by simp at h⟩
  | cons p ps ih =>
    intro t
    by_cases hu : isNonSmall p = true
    · by_cases h50 : matchString "50mb" p.URL = true
      · refine ⟨p, by simp [selectLoop, selectGuard_some, hu, h50], Or.inr ⟨?_, hu⟩,
          fun _ => ⟨?_, hu⟩⟩ <;> exact List.mem_cons_self _ _
      · obtain ⟨r, hr, hcase, _⟩ := ih p
        have hmem : r ∈ p :: ps ∧ isNonSmall r = true := by
          rcases hcase with rfl | ⟨hin, hns⟩
          · exact ⟨List.mem_cons_self _ _, hu⟩
          · exact ⟨List.mem_cons_of_mem _ hin, hns⟩
        refine ⟨r, ?_, Or.inr hmem, fun _ => hmem⟩
        simp only [selectLoop, selectGuard_some, hu, if_true, h50, if_false]
        exact hr
    · have hu2 : isNonSmall p = false := by simpa using hu
      obtain ⟨r, hr, hcase, hex⟩ := ih t
      refine ⟨r, ?_, ?_, ?_⟩
      · simp only [selectLoop, selectGuard_some, hu2, Bool.false_eq_true, if_false]
        exact hr
      · rcases hcase with rfl | ⟨hin, hns⟩
        · exact Or.inl rfl
        · exact Or.inr ⟨List.mem_cons_of_mem _ hin, hns⟩
      · rintro ⟨q, hq, hqn⟩
        rcases List.mem_cons.mp hq with rfl | hq
        · exact absurd hqn hu
        · obtain ⟨hin, hns⟩ := hex ⟨q, hq, hqn⟩
          exact ⟨List.mem_cons_of_mem _ hin, hns⟩

/-- C14, as amended: for every non-empty download probe list, the loop leaves
`targetProbe` set to a probe of the list (the nil fallback after the loop is
never taken) and the URL handed to `measureDownloadParallel` is the URL of that
probe; that URL is non-empty exactly when the first probe has a non-empty URL
or some probe has a URL that is non-empty and does not contain "100kb". -/
theorem downloadTarget_nonempty_iff (probes : List Probe) (hne : probes ≠ []) :
    ∃ t ∈ probes, selectLoop none probes = some t
      ∧ downloadTargetURL probes = some t.URL
      ∧ (t.URL ≠ "" ↔
          ((probes.head hne).URL ≠ "" ∨ ∃ p ∈ probes, isNonSmall p = true)) := by
  cases probes with
  | nil => exact absurd rfl hne
  | cons p0 rest =>
    by_cases h50 : matchString "50mb" p0.URL = true
    · have hloop : selectLoop none (p0 :: rest) = some p0 := by
        rw [selectLoop_none_cons, if_pos h50]
      have hurl : p0.URL ≠ "" := by simpa using matchString_50mb_ne_empty _ h50
      exact ⟨p0, List.mem_cons_self _ _, hloop, downloadTargetURL_cons p0 p0 rest hloop,
        fun _ => Or.inl hurl, fun _ => hurl⟩
    · obtain ⟨r, hr, hcase, hex⟩ := selectLoop_some_result rest p0
      have hloop : selectLoop none (p0 :: rest) = some r := by
        rw [selectLoop_none_cons, if_neg h50, hr]
      have hmem : r ∈ p0 :: rest := by
        rcases hcase with rfl | ⟨hin, _⟩
        · exact List.mem_cons_self _ _
        · exact List.mem_cons_of_mem _ hin
      refine ⟨r, hmem, hloop, downloadTargetURL_cons p0 r rest hloop, ?_, ?_⟩
      · intro hrurl
        rcases hcase with rfl | ⟨hin, hns⟩
        · exact Or.inl hrurl
        · exact Or.inr ⟨r, List.mem_cons_of_mem _ hin, hns⟩
      · rintro (h0 | ⟨q, hq, hqn⟩)
        · rcases hcase with rfl | ⟨_, hns⟩
          · exact h0
          · exact isNonSmall_url_ne_empty r hns
        · rcases List.mem_cons.mp hq with rfl | hq
          · rcases hcase with rfl | ⟨_, hns⟩
            · exact isNonSmall_url_ne_empty _ hqn
            · exact isNonSmall_url_ne_empty r hns
          · exact isNonSmall_url_ne_empty r (hex ⟨q, hq, hqn⟩).2

/-- C14, witness of the amended claim: `["", "b-normal"]` hands over
`"b-normal"`. -/
theorem downloadTarget_nonempty_iff_witness :
    probesOf ["", "b-normal"] ≠ []
    ∧ downloadTargetURL (probesOf ["", "b-normal"]) = some "b-normal"
    ∧ ∃ t ∈ probesOf ["", "b-normal"], selectLoop none (probesOf ["", "b-normal"]) = some t
      ∧ downloadTargetURL (probesOf ["", "b-normal"]) = some t.URL
      ∧ (t.URL ≠ "" ↔
          (((probesOf ["", "b-normal"]).head (by decide)).URL ≠ ""
            ∨ ∃ p ∈ probesOf ["", "b-normal"], isNonSmall p = true)) :=
  ⟨by decide, by decide, downloadTarget_nonempty_iff (probesOf ["", "b-normal"]) (by decide)⟩

/-- C14, counterexample to the claim as stated: `["", "a-100kb"]` is non-empty
and has a probe with a non-empty URL, and the URL handed over is the empty
string. -/
theorem downloadTarget_empty_url_counterexample :
    probesOf ["", "a-100kb"] ≠ []
    ∧ (∃ p ∈ probesOf ["", "a-100kb"], p.URL ≠ "")
    ∧ downloadTargetURL (probesOf ["", "a-100kb"]) = some "" := by
  decide

/-! ## The counting wrapper -/

theorem wrapInt64_of_range (x : Int) (hlo : -9223372036854775808 ≤ x)
    (hhi : x < 9223372036854775808) : wrapInt64 x = x := by
  unfold wrapInt64
  omega

/-- One read through a phase wrapper while the counter stays inside `int64`:
the pair comes back unchanged, the counter grows by `n`, and one report with
the new total is made exactly when `n > 0` and `progress` is set. -/
theorem countingRead_eq {ε : Type} (isDownload progressSet : Bool) (n : Int) (err : Option ε)
    (total : Int) (reports : List ProgressReport) (hn : 0 ≤ n)
    (hlo : -9223372036854775808 ≤ total) (hhi : total + n < 9223372036854775808) :
    countingRead isDownload progressSet n err { total := total, reports := reports }
      = ((n, err),
          { total := total + n,
            reports := reports ++ (if 0 < n ∧ progressSet = true then
              [{ Bytes := total + n, IsDownload := isDownload }] else []) }) := by
  rcases eq_or_lt_of_le hn with h0 | hpos
  · subst h0
    simp [countingRead, progressReader.Read]
  · have hw : wrapInt64 (total + n) = total + n :=
      wrapInt64_of_range _ (by omega) hhi
    cases progressSet <;>
      simp [countingRead, progressReader.Read, onReadParallel, hpos, hw]

theorem allSum_cons {ε : Type} (r : SharedRead ε) (l : List (SharedRead ε)) :
    allSum (r :: l) = r.n + allSum l := by
  simp [allSum]

theorem allSum_nonneg {ε : Type} (l : List (SharedRead ε)) (h : ∀ r ∈ l, 0 ≤ r.n) :
    0 ≤ allSum l := by
  induction l with
  | nil => simp [allSum]
  | cons r l ih =>
    rw [allSum_cons]
    have h1 := h r (List.mem_cons_self _ _)
    have h2 := ih (fun x hx => h x (List.mem_cons_of_mem _ hx))
    omega

theorem allSum_take_succ {ε : Type} (l : List (SharedRead ε)) :
    ∀ (j : Nat) (r : SharedRead ε), l[j]? = some r →
      allSum (l.take (j + 1)) = allSum (l.take j) + r.n := by
  induction l with
  | nil => intro j r h; simp at h
  | cons a l ih =>
    intro j r h
    cases j with
    | zero =>
      simp only [List.getElem?_cons_zero, Option.some.injEq] at h
      subst h
      simp [allSum]
    | succ j =>
      simp only [List.getElem?_cons_succ] at h
      simp only [List.take_succ_cons, allSum_cons, ih j r h]
      omega

theorem ownSum_add_othersSum {ε : Type} (w : Nat) (l : List (SharedRead ε)) :
    ownSum w l + othersSum w l = allSum l := by
  induction l with
  | nil => simp [ownSum, othersSum, allSum]
  | cons r l ih =>
    rw [allSum_cons, ← ih]
    simp only [ownSum, othersSum]
    split_ifs <;> omega

theorem othersSum_eq_zero {ε : Type} (w : Nat) (l : List (SharedRead ε))
    (h : ∀ r ∈ l, r.worker = w) : othersSum w l = 0 := by
  induction l with
  | nil => rfl
  | cons r l ih =>
    simp only [othersSum, h r (List.mem_cons_self _ _), if_true,
      ih (fun x hx => h x (List.mem_cons_of_mem _ hx))]
    rfl

theorem sharedRun_length {ε : Type} (isDownload progressSet : Bool)
    (sched : List (SharedRead ε)) :
    ∀ total : Int, (sharedRun isDownload progressSet sched total).length = sched.length := by
  induction sched with
  | nil => intro total; rfl
  | cons r rest ih => intro total; simp [sharedRun, ih]

/-- The outcome of the read at position `j` of a schedule, while the counter
stays inside `int64`. -/
theorem sharedRun_getElem? {ε : Type} (isDownload progressSet : Bool)
    (sched : List (SharedRead ε)) :
    ∀ (total : Int), (∀ r ∈ sched, 0 ≤ r.n) → -9223372036854775808 ≤ total →
      total + allSum sched < 9223372036854775808 →
      ∀ (j : Nat) (r : SharedRead ε), sched[j]? = some r →
        (sharedRun isDownload progressSet sched total)[j]?
          = some { worker := r.worker, returned := (r.n, r.err),
                   emitted := (if 0 < r.n ∧ progressSet = true then
                     [{ Bytes := total + allSum (sched.take (j + 1)),
                        IsDownload := isDownload }] else []),
                   totalAfter := total + allSum (sched.take (j + 1)) } := by
  induction sched with
  | nil => intro total _ _ _ j r h; simp at h
  | cons a rest ih =>
    intro total hn hlo hhi j r h
    have ha : 0 ≤ a.n := hn a (List.mem_cons_self _ _)
    have hrest : ∀ x ∈ rest, 0 ≤ x.n := fun x hx => hn x (List.mem_cons_of_mem _ hx)
    have hsum := allSum_nonneg rest hrest
    rw [allSum_cons] at hhi
    have hstep := countingRead_eq isDownload progressSet a.n a.err total [] ha hlo (by omega)
    cases j with
    | zero =>
      simp only [List.getElem?_cons_zero, Option.some.injEq] at h
      subst h
      simp [sharedRun, hstep, allSum]
    | succ j =>
      simp only [List.getElem?_cons_succ] at h
      have hnext := ih (total + a.n) hrest (by omega) (by omega) j r h
      have htake : allSum ((a :: rest).take (j + 1 + 1)) = a.n + allSum (rest.take (j + 1)) := by
        rw [List.take_succ_cons, allSum_cons]
      rw [htake, ← add_assoc]
      simp only [sharedRun, hstep, List.getElem?_cons_succ]
      exact hnext

/-- C12, as amended: byte counting through the `progressReader` wrappers of one
throughput phase, for every order in which the reads of the workers act on the
shared counter, with counts `>= 0` and the counter staying inside `int64`. The
read at any position returns the `(n, err)` pair of its underlying reader
unchanged and raises the counter by exactly its `n`; the counter after it is the
initial value plus the counts of this worker so far plus the counts the other
workers added so far, hence the initial value plus `n1 + ... + nk` when no other
worker has added; the counter never decreases; when a `progress` callback is
set, a read with `n > 0` makes exactly one report, with the new counter total
as `Bytes` and `IsDownload` true for download and false for upload; with a nil
callback no report is made; a read with `n = 0` changes nothing and makes no
report. -/
theorem sharedRun_exact {ε : Type} (isDownload progressSet : Bool)
    (sched : List (SharedRead ε)) (total : Int) (hn : ∀ r ∈ sched, 0 ≤ r.n)
    (hlo : -9223372036854775808 ≤ total) (hhi : total + allSum sched < 9223372036854775808)
    (j : Nat) (r : SharedRead ε) (hj : sched[j]? = some r) :
    ∃ o, (sharedRun isDownload progressSet sched total)[j]? = some o
      ∧ o.worker = r.worker
      ∧ o.returned = (r.n, r.err)
      ∧ o.totalAfter = (total + allSum (sched.take j)) + r.n
      ∧ o.totalAfter = total + ownSum r.worker (sched.take (j + 1))
          + othersSum r.worker (sched.take (j + 1))
      ∧ ((∀ x ∈ sched.take (j + 1), x.worker = r.worker) →
          o.totalAfter = total + ownSum r.worker (sched.take (j + 1)))
      ∧ total ≤ o.totalAfter
      ∧ (∀ o2, (sharedRun isDownload progressSet sched total)[j + 1]? = some o2 →
          o.totalAfter ≤ o2.totalAfter)
      ∧ (0 < r.n → progressSet = true →
          o.emitted = [{ Bytes := o.totalAfter, IsDownload := isDownload }])
      ∧ (progressSet = false → o.emitted = [])
      ∧ (r.n = 0 → o.emitted = [] ∧ o.totalAfter = total + allSum (sched.take j)) := by
  have hget := sharedRun_getElem? isDownload progressSet sched total hn hlo hhi
  have hrn : 0 ≤ r.n := hn r (List.getElem?_mem hj)
  have hsucc := allSum_take_succ sched j r hj
  have hprefix : 0 ≤ allSum (sched.take j) :=
    allSum_nonneg _ (fun x hx => hn x (List.mem_of_mem_take hx))
  refine ⟨_, hget j r hj, rfl, rfl, ?_, ?_, ?_, ?_, ?_, ?_, ?_, ?_⟩
  · show total + allSum (sched.take (j + 1)) = _
    rw [hsucc]
    omega
  · show total + allSum (sched.take (j + 1)) = _
    rw [← ownSum_add_othersSum r.worker (sched.take (j + 1))]
    omega
  · intro hall
    show total + allSum (sched.take (j + 1)) = _
    rw [← ownSum_add_othersSum r.worker (sched.take (j + 1)),
      othersSum_eq_zero r.worker _ hall]
    omega
  · show total ≤ total + allSum (sched.take (j + 1))
    rw [hsucc]
    omega
  · intro o2 ho2
    show total + allSum (sched.take (j + 1)) ≤ _
    have hlt : j + 1 < sched.length := by
      have := (List.getElem?_eq_some.mp ho2).1
      rwa [sharedRun_length] at this
    have hr2 : sched[j + 1]? = some (sched[j + 1]) := List.getElem?_eq_getElem hlt
    rw [hget (j + 1) _ hr2] at ho2
    have hn2 : 0 ≤ (sched[j + 1]).n := hn _ (List.getElem_mem hlt)
    have hs2 := allSum_take_succ sched (j + 1) _ hr2
    cases ho2
    show _ ≤ total + allSum (sched.take (j + 1 + 1))
    rw [hs2]
    omega
  · intro hpos hp
    simp [hpos, hp]
  · intro hp
    simp [hp]
  · intro h0
    refine ⟨by simp [h0], ?_⟩
    show total + allSum (sched.take (j + 1)) = _
    rw [hsucc, h0]
    omega

/-- C12, witness of the amended claim: in the schedule 0:5, 1:7, 0:3, 0:0 run
from a counter at 10 with a callback, the third read (worker 0, 3 bytes) leaves
the counter at 25 = 10 + (5 + 3) + 7 and reports 25. -/
theorem sharedRun_exact_witness :
    (∀ r ∈ twoWorkerReads, 0 ≤ r.n)
    ∧ (10 : Int) + allSum twoWorkerReads < 9223372036854775808
    ∧ twoWorkerReads[2]? = some { worker := 0, n := 3, err := none }
    ∧ sharedRun true true twoWorkerReads 10
        = [{ worker := 0, returned := (5, none),
             emitted := [{ Bytes := 15, IsDownload := true }], totalAfter := 15 },
           { worker := 1, returned := (7, none),
             emitted := [{ Bytes := 22, IsDownload := true }], totalAfter := 22 },
           { worker := 0, returned := (3, none),
             emitted := [{ Bytes := 25, IsDownload := true }], totalAfter := 25 },
           { worker := 0, returned := (0, some IoError.EOF), emitted := [], totalAfter := 25 }]
    ∧ ∃ o, (sharedRun true true twoWorkerReads 10)[2]? = some o
        ∧ o.totalAfter = 10 + ownSum 0 (twoWorkerReads.take (2 + 1))
            + othersSum 0 (twoWorkerReads.take (2 + 1)) :=
  ⟨by decide, by decide, by decide, by decide,
   match sharedRun_exact true true twoWorkerReads 10 (by decide) (by decide) (by decide) 2
      { worker := 0, n := 3, err := none } (by decide) with
   | ⟨o, ho, _, _, _, hsum, _⟩ => ⟨o, ho, hsum⟩⟩

/-- C12, counterexample to the claim as stated: with a nil `progress` callback
a read of 5 bytes makes no report; with two workers on the shared counter
(0:5, 1:7, 0:3 from zero) the counter after the second read of worker 0 is 15,
not 0 + 5 + 3; and at the largest `int64` a read of one byte wraps the counter
to the smallest. -/
theorem sharedRun_as_stated_counterexample :
    sharedRun true false [({ worker := 0, n := 5, err := none } : SharedRead IoError)] 0
        = [{ worker := 0, returned := (5, none), emitted := [], totalAfter := 5 }]
    ∧ (sharedRun true true twoWorkerReads 0).map (fun o => (o.worker, o.totalAfter))
        = [(0, 5), (1, 12), (0, 15), (0, 15)]
    ∧ (0 : Int) + ownSum 0 (twoWorkerReads.take 3) = 8
    ∧ (countingRead true true 1 (none : Option IoError)
          { total := maxInt64, reports := [] }).2.total = -9223372036854775808 := by
  decide

/-! ## The download worker -/

/-- A pass ends the goroutine exactly on cancellation, on a passed deadline,
on a request that cannot be built, on an error of `Do`, or on a nil response or
body. -/
theorem downloadIteration_stops_iff (url : String) (it : Iteration) :
    (downloadIteration url it).2 = false ↔
      (it.cancelled = true ∨ targetDuration ≤ it.elapsed ∨ it.requestError = true
        ∨ it.result = DoResult.error ∨ it.result = DoResult.nilResponse) := by
  obtain ⟨cancelled, elapsed, requestError, result⟩ := it
  unfold downloadIteration
  cases cancelled
  · by_cases hd : elapsed ≥ targetDuration
    · simp [hd]
    · cases requestError
      · cases result with
        | error => simp [hd]
        | nilResponse => simp [hd]
        | response status copied =>
          by_cases hs : status = 200
          · simp [hd, hs]
          · simp [hd, hs]
      · simp [hd]
  · simp

/-- A pass that gets past the three checks before the request starts with a
new GET for the worker's URL. -/
theorem downloadIteration_gets_url (url : String) (it : Iteration)
    (hc : it.cancelled = false) (hd : it.elapsed < targetDuration)
    (hr : it.requestError = false) :
    ∃ tail, (downloadIteration url it).1 = WorkerEvent.get url :: tail := by
  obtain ⟨cancelled, elapsed, requestError, result⟩ := it
  simp only at hc hd hr
  subst hc hr
  have hd2 : ¬ elapsed ≥ targetDuration := not_le.mpr hd
  unfold downloadIteration
  cases result with
  | error => exact ⟨[], by simp [hd2]⟩
  | nilResponse => exact ⟨[], by simp [hd2]⟩
  | response status copied =>
    by_cases hs : status = 200
    · exact ⟨_, by simp [hd2, hs]; rfl⟩
    · exact ⟨_, by simp [hd2, hs]; rfl⟩

/-- A pass answered with a status other than 200: the request, the close of
the body, one second of sleep when the status is 403, and the loop goes on. -/
theorem downloadIteration_non200 (url : String) (it : Iteration) (status copied : Int)
    (hc : it.cancelled = false) (hd : it.elapsed < targetDuration)
    (hr : it.requestError = false) (hres : it.result = DoResult.response status copied)
    (hs : status ≠ 200) :
    downloadIteration url it
      = ([WorkerEvent.get url, WorkerEvent.closeBody]
          ++ (if status = 403 then [WorkerEvent.sleep (1 * Second)] else []), true) := by
  obtain ⟨cancelled, elapsed, requestError, result⟩ := it
  simp only at hc hd hr hres
  subst hc hr hres
  have hd2 : ¬ elapsed ≥ targetDuration := not_le.mpr hd
  simp [downloadIteration, hd2, hs]

/-- C13, the code at the failing input: a download worker answered with
status 429 closes the body and goes on to the next request without any sleep
(three such answers in a row give three requests and no pause), where a 403
makes it sleep one second and where the upload worker sleeps 500 ms on a
429. -/
theorem downloadWorker_429_retries_without_sleep :
    downloadIteration "u" (answered 429)
        = ([WorkerEvent.get "u", WorkerEvent.closeBody], true)
    ∧ sleepTotal (downloadIteration "u" (answered 429)).1 = 0
    ∧ downloadWorker "u" [answered 429, answered 429, answered 429]
        = ([WorkerEvent.get "u", WorkerEvent.closeBody, WorkerEvent.get "u",
            WorkerEvent.closeBody, WorkerEvent.get "u", WorkerEvent.closeBody], false)
    ∧ sleepTotal (downloadIteration "u" (answered 403)).1 = 1000000000
    ∧ uploadIteration "u" 52428800 (answered 429)
        = ([WorkerEvent.post "u" 52428800, WorkerEvent.closeBody,
            WorkerEvent.sleep 500000000], true) := by
  decide

end Yandex
